import Mathlib

/-!
Shallow embedding of the `dex` ink! contract (`src/dex/lib.rs`) of the
Karbonomy/smart-contracts repository, together with theorems settling the
specification claims about it.

Modelling choices:
- `Balance` is `u128` in the source (`ink` default).  We model it as `Nat`,
  i.e. exact unsigned-integer arithmetic; this coincides with the source
  semantics on every execution in which no arithmetic step exceeds the
  128-bit width (ink builds enable overflow checks, so an overflowing step
  traps and reverts rather than wrapping).  The one claim that is about the
  width itself (the overflow behaviour of `getK`) is settled against a
  separate width-faithful definition `getKU128` that reduces modulo 2^128.
- `AccountId` is an opaque, equality-comparable key; we model it as `Nat`.
- `ink::storage::Mapping` is modelled as an association list.  `get`
  defaults to `0` exactly like `unwrap_or(&0)` in the source; `insert` is
  an upsert; `modify` mirrors `entry(k).and_modify(f)` (it updates the
  stored value only when the key is present, and does nothing otherwise —
  faithfully keeping the source quirk that `withdraw` credits token
  balances with `and_modify` and no `or_insert`).
- Rust `/` on unsigned integers is floor division; we use `Nat.div`, which
  agrees wherever the divisor is nonzero.  (Rust panics on a zero divisor;
  the only division sites divide by `totalShares`, and every state in which
  they are reached with `totalShares = 0` also has `totalToken1 *
  totalToken2 = 0`, so the guard `activePool` has already returned
  `ZeroLiquidity` in every reachable state: see the invariant theorems.)
- Each `&mut self` message becomes a function `Dex → ... → result × Dex`
  that threads the state; the returned state is built by the same sequence
  of field updates as the source, and every early `return Err(..)` returns
  the state as it stood at that point in the source.
-/

/-- Precision of 6 digits (`const PRECISION: u128 = 1_000_000` at crate root). -/
def PRECISION : Nat := 1000000

namespace dex

/-- The error enum of the contract, in source order. -/
inductive Error where
  | ZeroLiquidity
  | ZeroAmount
  | InsufficientAmount
  | NonEquivalentValue
  | ThresholdNotReached
  | InvalidShare
  | InsufficientLiquidity
  | SlippageExceeded
deriving DecidableEq

/-- Model of `ink::storage::Mapping<AccountId, Balance>`: an association list. -/
abbrev Mapping := List (Nat × Nat)

/-- Lookup with default `0`, as in `*m.get(&k).unwrap_or(&0)`. -/
def Mapping.get : Mapping → Nat → Nat
  | [], _ => 0
  | (k, v) :: rest, j => if k = j then v else Mapping.get rest j

/-- Remove every entry with the given key (helper for `insert`). -/
def Mapping.eraseKey : Mapping → Nat → Mapping
  | [], _ => []
  | (k, v) :: rest, j =>
      if k = j then Mapping.eraseKey rest j else (k, v) :: Mapping.eraseKey rest j

/-- Upsert, as in `m.insert(k, v)`. -/
def Mapping.insert (m : Mapping) (k : Nat) (v : Nat) : Mapping :=
  (k, v) :: Mapping.eraseKey m k

/-- Key-membership test (whether the `entry` is occupied). -/
def Mapping.contains : Mapping → Nat → Bool
  | [], _ => false
  | (k, _) :: rest, j => k = j || Mapping.contains rest j

/-- `m.entry(k).and_modify(f)` with no `or_insert`: update only when present. -/
def Mapping.modify (m : Mapping) (k : Nat) (f : Nat → Nat) : Mapping :=
  if Mapping.contains m k then Mapping.insert m k (f (Mapping.get m k)) else m

/-- `m.entry(k).and_modify(f).or_insert(v)`: update when present, insert `v` otherwise. -/
def Mapping.upsertWith (m : Mapping) (k : Nat) (f : Nat → Nat)
    (v : Nat) : Mapping :=
  if Mapping.contains m k then Mapping.insert m k (f (Mapping.get m k))
  else Mapping.insert m k v

/-- The keys of a mapping, in entry order. -/
def Mapping.keys (m : Mapping) : List Nat := m.map Prod.fst

/-- Sum of all stored values. -/
def Mapping.sumValues (m : Mapping) : Nat := (m.map Prod.snd).sum

/-- Well-formedness of an association list: no duplicate keys.  Every mapping
built from the empty one by `insert` / `modify` / `upsertWith` satisfies it. -/
def Mapping.NodupKeys (m : Mapping) : Prop := (Mapping.keys m).Nodup

/-- The `#[ink(storage)]` struct `Dex`, fields in source order. -/
structure Dex where
  totalShares : Nat
  totalToken1 : Nat
  totalToken2 : Nat
  shares : Mapping
  token1Balance : Mapping
  token2Balance : Mapping
  fees : Nat
deriving DecidableEq

/-- `validAmountCheck`: ensures `_qty` is nonzero and the caller has enough
balance in the given mapping. -/
def validAmountCheck (m : Mapping) (caller : Nat) (qty : Nat) :
    Except Error Unit :=
  let my_balance := Mapping.get m caller
  if qty = 0 then .error .ZeroAmount
  else if qty > my_balance then .error .InsufficientAmount
  else .ok ()

/-- `getK`: the liquidity constant `totalToken1 * totalToken2`, in the exact
model (see `getKU128` for the width-faithful version). -/
def Dex.getK (d : Dex) : Nat :=
  d.totalToken1 * d.totalToken2

/-- The `u128` multiplication of `getK` taken at its machine width: the product
reduced modulo 2^128.  (With overflow checks enabled the source instead traps
whenever the mathematical product reaches 2^128; either way the computation
does not return the exact product there.) -/
def getKU128 (totalToken1 totalToken2 : Nat) : Nat :=
  (totalToken1 * totalToken2) % 2 ^ 128

/-- `activePool`: fails with `ZeroLiquidity` while `getK() == 0`. -/
def Dex.activePool (d : Dex) : Except Error Unit :=
  if d.getK = 0 then .error .ZeroLiquidity else .ok ()

/-- The constructor `new(_fees)`: clamps `_fees >= 1000` to `0`, all other
fields default (zero / empty). -/
def Dex.new (fees : Nat) : Dex :=
  { totalShares := 0
    totalToken1 := 0
    totalToken2 := 0
    shares := []
    token1Balance := []
    token2Balance := []
    fees := if fees ≥ 1000 then 0 else fees }

/-- `faucet`: unconditionally credits the caller with free tokens. -/
def Dex.faucet (d : Dex) (caller : Nat) (amountToken1 amountToken2 : Nat) :
    Dex :=
  let token1 := Mapping.get d.token1Balance caller
  let token2 := Mapping.get d.token2Balance caller
  { d with
    token1Balance := Mapping.insert d.token1Balance caller (token1 + amountToken1)
    token2Balance := Mapping.insert d.token2Balance caller (token2 + amountToken2) }

/-- `getMyHoldings`: the caller balances `(token1, token2, myShares)`. -/
def Dex.getMyHoldings (d : Dex) (caller : Nat) : Nat × Nat × Nat :=
  (Mapping.get d.token1Balance caller, Mapping.get d.token2Balance caller,
    Mapping.get d.shares caller)

/-- `getPoolDetails`: `(totalToken1, totalToken2, totalShares, fees)`. -/
def Dex.getPoolDetails (d : Dex) : Nat × Nat × Nat × Nat :=
  (d.totalToken1, d.totalToken2, d.totalShares, d.fees)

/-- `getEquivalentToken1Estimate`. -/
def Dex.getEquivalentToken1Estimate (d : Dex) (amountToken2 : Nat) :
    Except Error Nat :=
  match d.activePool with
  | .error e => .error e
  | .ok _ => .ok (d.totalToken1 * amountToken2 / d.totalToken2)

/-- `getEquivalentToken2Estimate`. -/
def Dex.getEquivalentToken2Estimate (d : Dex) (amountToken1 : Nat) :
    Except Error Nat :=
  match d.activePool with
  | .error e => .error e
  | .ok _ => .ok (d.totalToken2 * amountToken1 / d.totalToken1)

/-- The state written by the commit phase of `provide` (lines 168–180 of the
source).  The debit at lines 169–172 reads the caller entries with
`unwrap()`; this is guarded by the two `validAmountCheck`s (`0 < amount ≤
stored balance` forces the entry to exist), and `Mapping.get` with default
`0` coincides with it there. -/
def Dex.provideOutcome (d : Dex) (caller : Nat)
    (amountToken1 amountToken2 share : Nat) : Dex :=
  let token1 := Mapping.get d.token1Balance caller
  let token2 := Mapping.get d.token2Balance caller
  { d with
    token1Balance := Mapping.insert d.token1Balance caller (token1 - amountToken1)
    token2Balance := Mapping.insert d.token2Balance caller (token2 - amountToken2)
    totalToken1 := d.totalToken1 + amountToken1
    totalToken2 := d.totalToken2 + amountToken2
    totalShares := d.totalShares + share
    shares := Mapping.upsertWith d.shares caller (fun v => v + share) share }

/-- The tail of `provide` from line 164 of the source on, once the share
amount is determined: the `share == 0` threshold check followed by the
commit. -/
def Dex.provideCommit (d : Dex) (caller : Nat)
    (amountToken1 amountToken2 share : Nat) : Except Error Nat × Dex :=
  if share = 0 then (.error .ThresholdNotReached, d)
  else (.ok share, d.provideOutcome caller amountToken1 amountToken2 share)

/-- `provide(_amountToken1, _amountToken2)`: adds liquidity, returning the
minted share amount and the new state (the input state on every error). -/
def Dex.provide (d : Dex) (caller : Nat) (amountToken1 amountToken2 : Nat) :
    Except Error Nat × Dex :=
  match validAmountCheck d.token1Balance caller amountToken1 with
  | .error e => (.error e, d)
  | .ok _ =>
  match validAmountCheck d.token2Balance caller amountToken2 with
  | .error e => (.error e, d)
  | .ok _ =>
  if d.totalShares = 0 then
    -- Genesis liquidity is issued 100 Shares
    d.provideCommit caller amountToken1 amountToken2 (100 * PRECISION)
  else
    let share1 := d.totalShares * amountToken1 / d.totalToken1
    let share2 := d.totalShares * amountToken2 / d.totalToken2
    if share1 ≠ share2 then (.error .NonEquivalentValue, d)
    else d.provideCommit caller amountToken1 amountToken2 share1

/-- `getWithdrawEstimate(_share)`: the token amounts released on burning
`_share`, a pure read. -/
def Dex.getWithdrawEstimate (d : Dex) (share : Nat) :
    Except Error (Nat × Nat) :=
  match d.activePool with
  | .error e => .error e
  | .ok _ =>
  if share > d.totalShares then .error .InvalidShare
  else
    .ok (share * d.totalToken1 / d.totalShares, share * d.totalToken2 / d.totalShares)

/-- The state written by the commit phase of `withdraw` (lines 205–216 of
the source): the share debit uses `and_modify` (guarded by the preceding
`validAmountCheck`, the caller entry exists whenever it fires), and the two
token credits use `and_modify` with no `or_insert`, so they do nothing when
the caller has no entry in the corresponding token map. -/
def Dex.withdrawOutcome (d : Dex) (caller : Nat)
    (share amountToken1 amountToken2 : Nat) : Dex :=
  { d with
    shares := Mapping.modify d.shares caller (fun v => v - share)
    totalShares := d.totalShares - share
    totalToken1 := d.totalToken1 - amountToken1
    totalToken2 := d.totalToken2 - amountToken2
    token1Balance := Mapping.modify d.token1Balance caller (fun v => v + amountToken1)
    token2Balance := Mapping.modify d.token2Balance caller (fun v => v + amountToken2) }

/-- `withdraw(_share)`: burns `_share` of the caller and releases the
corresponding token amounts, returning them and the new state (the input
state on every error). -/
def Dex.withdraw (d : Dex) (caller : Nat) (share : Nat) :
    Except Error (Nat × Nat) × Dex :=
  match validAmountCheck d.shares caller share with
  | .error e => (.error e, d)
  | .ok _ =>
  match d.getWithdrawEstimate share with
  | .error e => (.error e, d)
  | .ok (amountToken1, amountToken2) =>
    (.ok (amountToken1, amountToken2),
      d.withdrawOutcome caller share amountToken1 amountToken2)

/-- The states reachable from the constructor by the public mutating calls
(`faucet`, `provide`, `withdraw`; failed calls return the input state, so
they are covered as well). -/
inductive Reachable : Dex → Prop where
  | init (fees : Nat) : Reachable (Dex.new fees)
  | faucet {d : Dex} (caller : Nat) (a1 a2 : Nat) :
      Reachable d → Reachable (d.faucet caller a1 a2)
  | provide {d : Dex} (caller : Nat) (a1 a2 : Nat) :
      Reachable d → Reachable (d.provide caller a1 a2).2
  | withdraw {d : Dex} (caller : Nat) (s : Nat) :
      Reachable d → Reachable (d.withdraw caller s).2

/-! Basic lemmas about the `Mapping` model. -/

theorem Mapping.get_nil (j : Nat) : Mapping.get [] j = 0 := rfl

theorem Mapping.get_eraseKey_ne (m : Mapping) (k j : Nat) (h : j ≠ k) :
    Mapping.get (Mapping.eraseKey m k) j = Mapping.get m j := by
  induction m with
  | nil => rfl
  | cons p rest ih =>
    obtain ⟨a, b⟩ := p
    by_cases hak : a = k
    · subst hak
      simp [Mapping.eraseKey, Mapping.get, Ne.symm h, ih]
    · simp [Mapping.eraseKey, Mapping.get, hak, ih]

theorem Mapping.get_insert_self (m : Mapping) (k : Nat) (v : Nat) :
    Mapping.get (Mapping.insert m k v) k = v := by
  simp [Mapping.insert, Mapping.get]

theorem Mapping.get_insert_ne (m : Mapping) (k : Nat) (v : Nat)
    (j : Nat) (h : j ≠ k) :
    Mapping.get (Mapping.insert m k v) j = Mapping.get m j := by
  simp [Mapping.insert, Mapping.get, Ne.symm h, Mapping.get_eraseKey_ne m k j h]

theorem Mapping.not_mem_keys_eraseKey (m : Mapping) (k : Nat) :
    k ∉ Mapping.keys (Mapping.eraseKey m k) := by
  induction m with
  | nil => simp [Mapping.eraseKey, Mapping.keys]
  | cons p rest ih =>
    obtain ⟨a, b⟩ := p
    by_cases hak : a = k
    · simpa [Mapping.eraseKey, hak] using ih
    · simp only [Mapping.eraseKey, if_neg hak, Mapping.keys, List.map_cons,
        List.mem_cons, not_or]
      refine ⟨Ne.symm hak, ?_⟩
      simpa [Mapping.keys] using ih

theorem Mapping.mem_keys_of_mem_keys_eraseKey (m : Mapping) (k j : Nat)
    (h : j ∈ Mapping.keys (Mapping.eraseKey m k)) : j ∈ Mapping.keys m := by
  induction m with
  | nil => simp [Mapping.eraseKey, Mapping.keys] at h
  | cons p rest ih =>
    obtain ⟨a, b⟩ := p
    by_cases hak : a = k
    · simp only [Mapping.eraseKey, hak, if_pos rfl] at h
      exact List.mem_cons_of_mem a (ih h)
    · simp only [Mapping.eraseKey, if_neg hak, Mapping.keys, List.map_cons,
        List.mem_cons] at h ⊢
      rcases h with h | h
      · exact Or.inl h
      · exact Or.inr (ih h)

theorem Mapping.nodupKeys_eraseKey (m : Mapping) (k : Nat)
    (h : Mapping.NodupKeys m) : Mapping.NodupKeys (Mapping.eraseKey m k) := by
  induction m with
  | nil => simpa [Mapping.NodupKeys, Mapping.eraseKey] using h
  | cons p rest ih =>
    obtain ⟨a, b⟩ := p
    simp only [Mapping.NodupKeys, Mapping.keys, List.map_cons, List.nodup_cons] at h
    by_cases hak : a = k
    · simpa [Mapping.eraseKey, hak] using ih h.2
    · simp only [Mapping.eraseKey, if_neg hak, Mapping.NodupKeys, Mapping.keys,
        List.map_cons, List.nodup_cons]
      exact ⟨fun hmem => h.1 (Mapping.mem_keys_of_mem_keys_eraseKey rest k a hmem),
        ih h.2⟩

theorem Mapping.nodupKeys_insert (m : Mapping) (k : Nat) (v : Nat)
    (h : Mapping.NodupKeys m) : Mapping.NodupKeys (Mapping.insert m k v) := by
  simp only [Mapping.insert, Mapping.NodupKeys, Mapping.keys, List.map_cons,
    List.nodup_cons]
  exact ⟨Mapping.not_mem_keys_eraseKey m k, Mapping.nodupKeys_eraseKey m k h⟩

theorem Mapping.eraseKey_eq_self (m : Mapping) (k : Nat)
    (h : k ∉ Mapping.keys m) : Mapping.eraseKey m k = m := by
  induction m with
  | nil => rfl
  | cons p rest ih =>
    obtain ⟨a, b⟩ := p
    simp only [Mapping.keys, List.map_cons, List.mem_cons, not_or] at h
    simp [Mapping.eraseKey, Ne.symm h.1, ih h.2]

theorem Mapping.sumValues_nil : Mapping.sumValues [] = 0 := rfl

theorem Mapping.sumValues_cons (k : Nat) (v : Nat) (m : Mapping) :
    Mapping.sumValues ((k, v) :: m) = v + Mapping.sumValues m := by
  simp [Mapping.sumValues]

theorem Mapping.get_eq_zero_of_not_mem (m : Mapping) (k : Nat)
    (h : k ∉ Mapping.keys m) : Mapping.get m k = 0 := by
  induction m with
  | nil => rfl
  | cons p rest ih =>
    obtain ⟨a, b⟩ := p
    simp only [Mapping.keys, List.map_cons, List.mem_cons, not_or] at h
    simp [Mapping.get, Ne.symm h.1, ih h.2]

theorem Mapping.sumValues_eraseKey_add_get (m : Mapping) (k : Nat)
    (h : Mapping.NodupKeys m) :
    Mapping.sumValues (Mapping.eraseKey m k) + Mapping.get m k = Mapping.sumValues m := by
  induction m with
  | nil => rfl
  | cons p rest ih =>
    obtain ⟨a, b⟩ := p
    simp only [Mapping.NodupKeys, Mapping.keys, List.map_cons, List.nodup_cons] at h
    by_cases hak : a = k
    · subst hak
      simp [Mapping.eraseKey, Mapping.get, Mapping.eraseKey_eq_self rest a h.1,
        Mapping.sumValues_cons, Nat.add_comm]
    · have hih := ih h.2
      simp only [Mapping.eraseKey, if_neg hak, Mapping.get, Mapping.sumValues_cons]
      omega

theorem Mapping.sumValues_insert (m : Mapping) (k : Nat) (v : Nat)
    (h : Mapping.NodupKeys m) :
    Mapping.sumValues (Mapping.insert m k v) + Mapping.get m k
      = v + Mapping.sumValues m := by
  have h1 := Mapping.sumValues_eraseKey_add_get m k h
  have h2 : Mapping.sumValues (Mapping.insert m k v)
      = v + Mapping.sumValues (Mapping.eraseKey m k) :=
    Mapping.sumValues_cons k v (Mapping.eraseKey m k)
  omega

theorem Mapping.get_le_sumValues (m : Mapping) (k : Nat) :
    Mapping.get m k ≤ Mapping.sumValues m := by
  induction m with
  | nil => exact Nat.le_refl 0
  | cons p rest ih =>
    obtain ⟨a, b⟩ := p
    simp only [Mapping.get, Mapping.sumValues_cons]
    by_cases hak : a = k
    · simp [hak]
    · simp only [if_neg hak]
      exact le_trans ih (Nat.le_add_left _ _)

theorem Mapping.contains_iff_mem_keys (m : Mapping) (k : Nat) :
    Mapping.contains m k = true ↔ k ∈ Mapping.keys m := by
  induction m with
  | nil => simp [Mapping.contains, Mapping.keys]
  | cons p rest ih =>
    obtain ⟨a, b⟩ := p
    simp only [Mapping.contains, Bool.or_eq_true, decide_eq_true_eq, Mapping.keys,
      List.map_cons, List.mem_cons, ih]
    exact or_congr_left eq_comm

theorem Mapping.get_eq_zero_of_not_contains (m : Mapping) (k : Nat)
    (h : Mapping.contains m k = false) : Mapping.get m k = 0 := by
  apply Mapping.get_eq_zero_of_not_mem
  intro hmem
  rw [← Mapping.contains_iff_mem_keys] at hmem
  simp [h] at hmem

theorem Mapping.contains_of_get_ne_zero (m : Mapping) (k : Nat)
    (h : Mapping.get m k ≠ 0) : Mapping.contains m k = true := by
  cases hc : Mapping.contains m k with
  | false => exact absurd (Mapping.get_eq_zero_of_not_contains m k hc) h
  | true => rfl

theorem Mapping.upsertWith_add (m : Mapping) (k : Nat) (s : Nat) :
    Mapping.upsertWith m k (fun v => v + s) s
      = Mapping.insert m k (Mapping.get m k + s) := by
  unfold Mapping.upsertWith
  cases hc : Mapping.contains m k with
  | false => simp [Mapping.get_eq_zero_of_not_contains m k hc]
  | true => simp

theorem Mapping.modify_eq_insert (m : Mapping) (k : Nat) (f : Nat → Nat)
    (h : Mapping.contains m k = true) :
    Mapping.modify m k f = Mapping.insert m k (f (Mapping.get m k)) := by
  simp [Mapping.modify, h]

theorem Mapping.modify_eq_self (m : Mapping) (k : Nat) (f : Nat → Nat)
    (h : Mapping.contains m k = false) : Mapping.modify m k f = m := by
  simp [Mapping.modify, h]

theorem Mapping.nodupKeys_modify (m : Mapping) (k : Nat) (f : Nat → Nat)
    (h : Mapping.NodupKeys m) : Mapping.NodupKeys (Mapping.modify m k f) := by
  unfold Mapping.modify
  cases Mapping.contains m k with
  | false => simpa using h
  | true => simpa using Mapping.nodupKeys_insert m k (f (Mapping.get m k)) h

theorem Mapping.nodupKeys_upsertWith (m : Mapping) (k : Nat)
    (f : Nat → Nat) (v : Nat) (h : Mapping.NodupKeys m) :
    Mapping.NodupKeys (Mapping.upsertWith m k f v) := by
  unfold Mapping.upsertWith
  cases Mapping.contains m k with
  | false => simpa using Mapping.nodupKeys_insert m k v h
  | true => simpa using Mapping.nodupKeys_insert m k (f (Mapping.get m k)) h

theorem Mapping.nodupKeys_nil : Mapping.NodupKeys [] := List.nodup_nil

theorem Mapping.mem_keys_eraseKey_of_ne (m : Mapping) (j k : Nat) (h : k ≠ j)
    (hmem : k ∈ Mapping.keys m) : k ∈ Mapping.keys (Mapping.eraseKey m j) := by
  induction m with
  | nil => simp [Mapping.keys] at hmem
  | cons p rest ih =>
    obtain ⟨a, b⟩ := p
    simp only [Mapping.keys, List.map_cons, List.mem_cons] at hmem
    by_cases haj : a = j
    · simp only [Mapping.eraseKey, if_pos haj]
      rcases hmem with hka | hk
      · exact absurd (hka.trans haj) h
      · exact ih hk
    · simp only [Mapping.eraseKey, if_neg haj, Mapping.keys, List.map_cons,
        List.mem_cons]
      rcases hmem with hka | hk
      · exact Or.inl hka
      · exact Or.inr (ih hk)

theorem Mapping.contains_insert_self (m : Mapping) (j v : Nat) :
    Mapping.contains (Mapping.insert m j v) j = true := by
  simp [Mapping.insert, Mapping.contains]

theorem Mapping.contains_insert_ne (m : Mapping) (j v k : Nat) (h : k ≠ j) :
    Mapping.contains (Mapping.insert m j v) k = Mapping.contains m k := by
  have hiff : Mapping.contains (Mapping.insert m j v) k = true
      ↔ Mapping.contains m k = true := by
    rw [Mapping.contains_iff_mem_keys, Mapping.contains_iff_mem_keys]
    constructor
    · intro hmem
      simp only [Mapping.insert, Mapping.keys, List.map_cons, List.mem_cons] at hmem
      rcases hmem with hkj | hmem
      · exact absurd hkj h
      · exact Mapping.mem_keys_of_mem_keys_eraseKey m j k hmem
    · intro hmem
      simp only [Mapping.insert, Mapping.keys, List.map_cons, List.mem_cons]
      exact Or.inr (Mapping.mem_keys_eraseKey_of_ne m j k h hmem)
  cases hb : Mapping.contains m k with
  | true => exact hiff.mpr hb
  | false =>
    cases ha : Mapping.contains (Mapping.insert m j v) k with
    | false => rfl
    | true => exact absurd (hb ▸ hiff.mp ha) Bool.false_ne_true

theorem Mapping.contains_modify (m : Mapping) (j : Nat) (f : Nat → Nat) (k : Nat) :
    Mapping.contains (Mapping.modify m j f) k = Mapping.contains m k := by
  by_cases hc : Mapping.contains m j = true
  · rw [Mapping.modify_eq_insert m j f hc]
    by_cases hkj : k = j
    · subst hkj
      rw [Mapping.contains_insert_self, hc]
    · exact Mapping.contains_insert_ne m j _ k hkj
  · have hcf : Mapping.contains m j = false := by
      cases h2 : Mapping.contains m j
      · rfl
      · exact absurd h2 hc
    rw [Mapping.modify_eq_self m j f hcf]

/-! Characterization lemmas for the contract operations. -/

theorem validAmountCheck_eq_ok (m : Mapping) (c : Nat) (q : Nat) :
    validAmountCheck m c q = .ok () ↔ q ≠ 0 ∧ q ≤ Mapping.get m c := by
  unfold validAmountCheck
  by_cases h0 : q = 0
  · subst h0; simp
  · by_cases hgt : q > Mapping.get m c
    · simp only [if_neg h0, if_pos hgt]
      constructor
      · intro h; exact Except.noConfusion h
      · intro h; exact absurd h.2 (Nat.not_le.mpr hgt)
    · simp only [if_neg h0, if_neg hgt]
      constructor
      · intro _; exact ⟨h0, Nat.not_lt.mp hgt⟩
      · intro _; trivial

theorem getWithdrawEstimate_eq (d : Dex) (s : Nat) :
    d.getWithdrawEstimate s =
      if d.totalToken1 * d.totalToken2 = 0 then .error .ZeroLiquidity
      else if s > d.totalShares then .error .InvalidShare
      else .ok (s * d.totalToken1 / d.totalShares, s * d.totalToken2 / d.totalShares) := by
  unfold Dex.getWithdrawEstimate Dex.activePool Dex.getK
  by_cases hK : d.totalToken1 * d.totalToken2 = 0
  · simp [hK]
  · simp [hK]

theorem provideCommit_zero (d : Dex) (c : Nat) (a1 a2 : Nat) :
    d.provideCommit c a1 a2 0 = (.error .ThresholdNotReached, d) := by
  simp [Dex.provideCommit]

theorem provideCommit_ok (d : Dex) (c : Nat) (a1 a2 s : Nat) (hs : s ≠ 0) :
    d.provideCommit c a1 a2 s = (.ok s, d.provideOutcome c a1 a2 s) := by
  simp [Dex.provideCommit, hs]

theorem provide_def_checks (d : Dex) (c : Nat) (a1 a2 : Nat)
    (h1 : validAmountCheck d.token1Balance c a1 = .ok ())
    (h2 : validAmountCheck d.token2Balance c a2 = .ok ()) :
    d.provide c a1 a2 =
      if d.totalShares = 0 then d.provideCommit c a1 a2 (100 * PRECISION)
      else if d.totalShares * a1 / d.totalToken1 ≠ d.totalShares * a2 / d.totalToken2
        then (.error .NonEquivalentValue, d)
        else d.provideCommit c a1 a2 (d.totalShares * a1 / d.totalToken1) := by
  unfold Dex.provide
  rw [h1, h2]

theorem withdraw_def_checks (d : Dex) (c : Nat) (s x1 x2 : Nat)
    (h1 : validAmountCheck d.shares c s = .ok ())
    (h2 : d.getWithdrawEstimate s = .ok (x1, x2)) :
    d.withdraw c s = (.ok (x1, x2), d.withdrawOutcome c s x1 x2) := by
  unfold Dex.withdraw
  rw [h1, h2]

/-- Full case analysis of `provide`: it either fails and returns the input
state unchanged, or all checks passed and it commits. -/
theorem provide_spec (d : Dex) (c : Nat) (a1 a2 : Nat) :
    (∃ e, d.provide c a1 a2 = (.error e, d)) ∨
    (∃ s, a1 ≠ 0 ∧ a1 ≤ Mapping.get d.token1Balance c ∧
      a2 ≠ 0 ∧ a2 ≤ Mapping.get d.token2Balance c ∧ s ≠ 0 ∧
      ((d.totalShares = 0 ∧ s = 100 * PRECISION) ∨
        (d.totalShares ≠ 0 ∧ s = d.totalShares * a1 / d.totalToken1 ∧
          s = d.totalShares * a2 / d.totalToken2)) ∧
      d.provide c a1 a2 = (.ok s, d.provideOutcome c a1 a2 s)) := by
  cases hv1 : validAmountCheck d.token1Balance c a1 with
  | error e =>
    left
    exact ⟨e, by unfold Dex.provide; rw [hv1]⟩
  | ok u =>
    cases u
    cases hv2 : validAmountCheck d.token2Balance c a2 with
    | error e =>
      left
      exact ⟨e, by unfold Dex.provide; rw [hv1, hv2]⟩
    | ok u =>
      cases u
      obtain ⟨ha1, hb1⟩ := (validAmountCheck_eq_ok _ _ _).mp hv1
      obtain ⟨ha2, hb2⟩ := (validAmountCheck_eq_ok _ _ _).mp hv2
      rw [provide_def_checks d c a1 a2 hv1 hv2]
      by_cases h0 : d.totalShares = 0
      · rw [if_pos h0, provideCommit_ok d c a1 a2 (100 * PRECISION) (by decide)]
        exact Or.inr ⟨100 * PRECISION, ha1, hb1, ha2, hb2, by decide,
          Or.inl ⟨h0, rfl⟩, rfl⟩
      · rw [if_neg h0]
        by_cases hne : d.totalShares * a1 / d.totalToken1
            ≠ d.totalShares * a2 / d.totalToken2
        · rw [if_pos hne]
          exact Or.inl ⟨.NonEquivalentValue, rfl⟩
        · rw [if_neg hne]
          push_neg at hne
          by_cases hs0 : d.totalShares * a1 / d.totalToken1 = 0
          · rw [hs0, provideCommit_zero]
            exact Or.inl ⟨.ThresholdNotReached, rfl⟩
          · rw [provideCommit_ok d c a1 a2 _ hs0]
            exact Or.inr ⟨d.totalShares * a1 / d.totalToken1, ha1, hb1, ha2, hb2,
              hs0, Or.inr ⟨h0, rfl, hne⟩, rfl⟩

/-- Full case analysis of `withdraw`: it either fails and returns the input
state unchanged, or all checks passed and it commits. -/
theorem withdraw_spec (d : Dex) (c : Nat) (s : Nat) :
    (∃ e, d.withdraw c s = (.error e, d)) ∨
    (s ≠ 0 ∧ s ≤ Mapping.get d.shares c ∧ d.totalToken1 * d.totalToken2 ≠ 0 ∧
      s ≤ d.totalShares ∧
      d.withdraw c s =
        (.ok (s * d.totalToken1 / d.totalShares, s * d.totalToken2 / d.totalShares),
          d.withdrawOutcome c s (s * d.totalToken1 / d.totalShares)
            (s * d.totalToken2 / d.totalShares))) := by
  cases hv1 : validAmountCheck d.shares c s with
  | error e =>
    left
    exact ⟨e, by unfold Dex.withdraw; rw [hv1]⟩
  | ok u =>
    cases u
    obtain ⟨hs0, hsb⟩ := (validAmountCheck_eq_ok _ _ _).mp hv1
    by_cases hK : d.totalToken1 * d.totalToken2 = 0
    · left
      refine ⟨.ZeroLiquidity, ?_⟩
      unfold Dex.withdraw
      rw [hv1, getWithdrawEstimate_eq, if_pos hK]
    · by_cases hgt : s > d.totalShares
      · left
        refine ⟨.InvalidShare, ?_⟩
        unfold Dex.withdraw
        rw [hv1, getWithdrawEstimate_eq, if_neg hK, if_pos hgt]
      · right
        have hest : d.getWithdrawEstimate s
            = .ok (s * d.totalToken1 / d.totalShares,
                s * d.totalToken2 / d.totalShares) := by
          rw [getWithdrawEstimate_eq, if_neg hK, if_neg hgt]
        exact ⟨hs0, hsb, hK, Nat.not_lt.mp hgt,
          withdraw_def_checks d c s _ _ hv1 hest⟩

/-! Field values of the committed states, by unfolding. -/

@[simp] theorem provideOutcome_totalShares (d : Dex) (c : Nat) (a1 a2 s : Nat) :
    (d.provideOutcome c a1 a2 s).totalShares = d.totalShares + s := rfl

@[simp] theorem provideOutcome_totalToken1 (d : Dex) (c : Nat) (a1 a2 s : Nat) :
    (d.provideOutcome c a1 a2 s).totalToken1 = d.totalToken1 + a1 := rfl

@[simp] theorem provideOutcome_totalToken2 (d : Dex) (c : Nat) (a1 a2 s : Nat) :
    (d.provideOutcome c a1 a2 s).totalToken2 = d.totalToken2 + a2 := rfl

@[simp] theorem provideOutcome_shares (d : Dex) (c : Nat) (a1 a2 s : Nat) :
    (d.provideOutcome c a1 a2 s).shares
      = Mapping.upsertWith d.shares c (fun v => v + s) s := rfl

@[simp] theorem provideOutcome_token1Balance (d : Dex) (c : Nat) (a1 a2 s : Nat) :
    (d.provideOutcome c a1 a2 s).token1Balance
      = Mapping.insert d.token1Balance c (Mapping.get d.token1Balance c - a1) := rfl

@[simp] theorem provideOutcome_token2Balance (d : Dex) (c : Nat) (a1 a2 s : Nat) :
    (d.provideOutcome c a1 a2 s).token2Balance
      = Mapping.insert d.token2Balance c (Mapping.get d.token2Balance c - a2) := rfl

@[simp] theorem provideOutcome_fees (d : Dex) (c : Nat) (a1 a2 s : Nat) :
    (d.provideOutcome c a1 a2 s).fees = d.fees := rfl

@[simp] theorem withdrawOutcome_totalShares (d : Dex) (c : Nat) (s x1 x2 : Nat) :
    (d.withdrawOutcome c s x1 x2).totalShares = d.totalShares - s := rfl

@[simp] theorem withdrawOutcome_totalToken1 (d : Dex) (c : Nat) (s x1 x2 : Nat) :
    (d.withdrawOutcome c s x1 x2).totalToken1 = d.totalToken1 - x1 := rfl

@[simp] theorem withdrawOutcome_totalToken2 (d : Dex) (c : Nat) (s x1 x2 : Nat) :
    (d.withdrawOutcome c s x1 x2).totalToken2 = d.totalToken2 - x2 := rfl

@[simp] theorem withdrawOutcome_shares (d : Dex) (c : Nat) (s x1 x2 : Nat) :
    (d.withdrawOutcome c s x1 x2).shares
      = Mapping.modify d.shares c (fun v => v - s) := rfl

@[simp] theorem withdrawOutcome_token1Balance (d : Dex) (c : Nat) (s x1 x2 : Nat) :
    (d.withdrawOutcome c s x1 x2).token1Balance
      = Mapping.modify d.token1Balance c (fun v => v + x1) := rfl

@[simp] theorem withdrawOutcome_token2Balance (d : Dex) (c : Nat) (s x1 x2 : Nat) :
    (d.withdrawOutcome c s x1 x2).token2Balance
      = Mapping.modify d.token2Balance c (fun v => v + x2) := rfl

@[simp] theorem withdrawOutcome_fees (d : Dex) (c : Nat) (s x1 x2 : Nat) :
    (d.withdrawOutcome c s x1 x2).fees = d.fees := rfl

@[simp] theorem faucet_totalShares (d : Dex) (c : Nat) (a1 a2 : Nat) :
    (d.faucet c a1 a2).totalShares = d.totalShares := rfl

@[simp] theorem faucet_totalToken1 (d : Dex) (c : Nat) (a1 a2 : Nat) :
    (d.faucet c a1 a2).totalToken1 = d.totalToken1 := rfl

@[simp] theorem faucet_totalToken2 (d : Dex) (c : Nat) (a1 a2 : Nat) :
    (d.faucet c a1 a2).totalToken2 = d.totalToken2 := rfl

@[simp] theorem faucet_shares (d : Dex) (c : Nat) (a1 a2 : Nat) :
    (d.faucet c a1 a2).shares = d.shares := rfl

@[simp] theorem faucet_token1Balance (d : Dex) (c : Nat) (a1 a2 : Nat) :
    (d.faucet c a1 a2).token1Balance
      = Mapping.insert d.token1Balance c (Mapping.get d.token1Balance c + a1) := rfl

@[simp] theorem faucet_token2Balance (d : Dex) (c : Nat) (a1 a2 : Nat) :
    (d.faucet c a1 a2).token2Balance
      = Mapping.insert d.token2Balance c (Mapping.get d.token2Balance c + a2) := rfl

@[simp] theorem faucet_fees (d : Dex) (c : Nat) (a1 a2 : Nat) :
    (d.faucet c a1 a2).fees = d.fees := rfl

/-! The inductive state invariant of the pool. -/

/-- Invariant preserved by every public operation: the ledger maps are
well-formed, the pool is empty in an asset exactly when no shares exist,
`totalShares` is the sum of all share balances, and every share holder has
entries in both token-balance maps. -/
def Inv (d : Dex) : Prop :=
  Mapping.NodupKeys d.shares ∧ Mapping.NodupKeys d.token1Balance ∧
  Mapping.NodupKeys d.token2Balance ∧
  (d.totalToken1 = 0 ↔ d.totalShares = 0) ∧
  (d.totalToken2 = 0 ↔ d.totalShares = 0) ∧
  Mapping.sumValues d.shares = d.totalShares ∧
  (∀ k, Mapping.get d.shares k ≠ 0 →
    Mapping.contains d.token1Balance k = true ∧
    Mapping.contains d.token2Balance k = true)

theorem inv_new (fees : Nat) : Inv (Dex.new fees) :=
  ⟨List.nodup_nil, List.nodup_nil, List.nodup_nil, Iff.rfl, Iff.rfl, rfl,
    fun _ hk => absurd rfl hk⟩

theorem inv_faucet (d : Dex) (c : Nat) (a1 a2 : Nat) (h : Inv d) :
    Inv (d.faucet c a1 a2) := by
  obtain ⟨hs, h1, h2, hi1, hi2, hsum, hcov⟩ := h
  refine ⟨hs, Mapping.nodupKeys_insert _ _ _ h1, Mapping.nodupKeys_insert _ _ _ h2,
    hi1, hi2, hsum, ?_⟩
  simp only [faucet_shares] at *
  intro k hk
  obtain ⟨hc1, hc2⟩ := hcov k hk
  simp only [faucet_token1Balance, faucet_token2Balance]
  by_cases hkc : k = c
  · subst hkc
    exact ⟨Mapping.contains_insert_self _ _ _, Mapping.contains_insert_self _ _ _⟩
  · rw [Mapping.contains_insert_ne _ _ _ _ hkc, Mapping.contains_insert_ne _ _ _ _ hkc]
    exact ⟨hc1, hc2⟩

theorem inv_provide (d : Dex) (c : Nat) (a1 a2 : Nat) (h : Inv d) :
    Inv (d.provide c a1 a2).2 := by
  rcases provide_spec d c a1 a2 with ⟨e, heq⟩ | ⟨s, ha1, hb1, ha2, hb2, hs, _, heq⟩
  · rw [heq]; exact h
  · rw [heq]
    obtain ⟨hnshares, hn1, hn2, hi1, hi2, hsum, hcov⟩ := h
    refine ⟨?_, ?_, ?_, ?_, ?_, ?_, ?_⟩
    · simp only [provideOutcome_shares]
      exact Mapping.nodupKeys_upsertWith _ _ _ _ hnshares
    · simp only [provideOutcome_token1Balance]
      exact Mapping.nodupKeys_insert _ _ _ hn1
    · simp only [provideOutcome_token2Balance]
      exact Mapping.nodupKeys_insert _ _ _ hn2
    · simp only [provideOutcome_totalToken1, provideOutcome_totalShares]
      omega
    · simp only [provideOutcome_totalToken2, provideOutcome_totalShares]
      omega
    · simp only [provideOutcome_shares, provideOutcome_totalShares,
        Mapping.upsertWith_add]
      have hins := Mapping.sumValues_insert d.shares c
        (Mapping.get d.shares c + s) hnshares
      generalize Mapping.get d.shares c = g at hins ⊢
      omega
    · simp only [provideOutcome_shares, provideOutcome_token1Balance,
        provideOutcome_token2Balance, Mapping.upsertWith_add]
      intro k hk
      by_cases hkc : k = c
      · subst hkc
        exact ⟨Mapping.contains_insert_self _ _ _, Mapping.contains_insert_self _ _ _⟩
      · rw [Mapping.get_insert_ne _ _ _ _ hkc] at hk
        obtain ⟨hc1, hc2⟩ := hcov k hk
        rw [Mapping.contains_insert_ne _ _ _ _ hkc,
          Mapping.contains_insert_ne _ _ _ _ hkc]
        exact ⟨hc1, hc2⟩

theorem inv_withdraw (d : Dex) (c : Nat) (s : Nat) (h : Inv d) :
    Inv (d.withdraw c s).2 := by
  rcases withdraw_spec d c s with ⟨e, heq⟩ | ⟨hs0, hsb, hK, hsS, heq⟩
  · rw [heq]; exact h
  · rw [heq]
    obtain ⟨hnshares, hn1, hn2, hi1, hi2, hsum, hcov⟩ := h
    have ht1 : d.totalToken1 ≠ 0 := left_ne_zero_of_mul hK
    have ht2 : d.totalToken2 ≠ 0 := right_ne_zero_of_mul hK
    have hSpos : 0 < d.totalShares := by omega
    have hgetpos : Mapping.get d.shares c ≠ 0 := by
      intro hz
      rw [hz] at hsb
      exact hs0 (Nat.le_zero.mp hsb)
    refine ⟨?_, ?_, ?_, ?_, ?_, ?_, ?_⟩
    · simp only [withdrawOutcome_shares]
      exact Mapping.nodupKeys_modify _ _ _ hnshares
    · simp only [withdrawOutcome_token1Balance]
      exact Mapping.nodupKeys_modify _ _ _ hn1
    · simp only [withdrawOutcome_token2Balance]
      exact Mapping.nodupKeys_modify _ _ _ hn2
    · simp only [withdrawOutcome_totalToken1, withdrawOutcome_totalShares]
      by_cases hss : s = d.totalShares
      · have hx1 : s * d.totalToken1 / d.totalShares = d.totalToken1 := by
          rw [hss]
          exact Nat.mul_div_cancel_left _ hSpos
        rw [hx1, hss]
        simp
      · have hlt : s < d.totalShares := by omega
        have hx1lt : s * d.totalToken1 / d.totalShares < d.totalToken1 := by
          rw [Nat.div_lt_iff_lt_mul hSpos, Nat.mul_comm d.totalToken1 d.totalShares]
          exact Nat.mul_lt_mul_of_lt_of_le hlt (Nat.le_refl _) (Nat.pos_of_ne_zero ht1)
        omega
    · simp only [withdrawOutcome_totalToken2, withdrawOutcome_totalShares]
      by_cases hss : s = d.totalShares
      · have hx2 : s * d.totalToken2 / d.totalShares = d.totalToken2 := by
          rw [hss]
          exact Nat.mul_div_cancel_left _ hSpos
        rw [hx2, hss]
        simp
      · have hlt : s < d.totalShares := by omega
        have hx2lt : s * d.totalToken2 / d.totalShares < d.totalToken2 := by
          rw [Nat.div_lt_iff_lt_mul hSpos, Nat.mul_comm d.totalToken2 d.totalShares]
          exact Nat.mul_lt_mul_of_lt_of_le hlt (Nat.le_refl _) (Nat.pos_of_ne_zero ht2)
        omega
    · simp only [withdrawOutcome_shares, withdrawOutcome_totalShares]
      rw [Mapping.modify_eq_insert _ _ _ (Mapping.contains_of_get_ne_zero _ _ hgetpos)]
      have hins := Mapping.sumValues_insert d.shares c
        (Mapping.get d.shares c - s) hnshares
      generalize Mapping.get d.shares c = g at hins hsb ⊢
      omega
    · simp only [withdrawOutcome_shares, withdrawOutcome_token1Balance,
        withdrawOutcome_token2Balance]
      rw [Mapping.modify_eq_insert _ _ _ (Mapping.contains_of_get_ne_zero _ _ hgetpos)]
      intro k hk
      rw [Mapping.contains_modify, Mapping.contains_modify]
      by_cases hkc : k = c
      · subst hkc
        exact hcov k hgetpos
      · rw [Mapping.get_insert_ne _ _ _ _ hkc] at hk
        exact hcov k hk

/-- Every reachable state satisfies the invariant. -/
theorem reachable_inv (d : Dex) (h : Reachable d) : Inv d := by
  induction h with
  | init fees => exact inv_new fees
  | faucet c a1 a2 _ ih => exact inv_faucet _ c a1 a2 ih
  | provide c a1 a2 _ ih => exact inv_provide _ c a1 a2 ih
  | withdraw c s _ ih => exact inv_withdraw _ c s ih

end dex

/-!
Concrete example states used by the witnesses: the result of a short
reachable history (construct, faucet, bootstrap deposit).
-/

/-- A freshly constructed pool, `new(0)`. -/
def dexEmpty : dex.Dex := dex.Dex.new 0

/-- The fresh pool after caller `0` drew `(1000, 1000)` from the faucet. -/
def dexSeeded : dex.Dex := dexEmpty.faucet 0 1000 1000

/-- The seeded pool after the bootstrap deposit `provide(100, 100)` by caller `0`. -/
def dexFunded : dex.Dex := (dexSeeded.provide 0 100 100).2

theorem dexSeeded_reachable : dex.Reachable dexSeeded :=
  dex.Reachable.faucet 0 1000 1000 (dex.Reachable.init 0)

theorem dexFunded_reachable : dex.Reachable dexFunded :=
  dex.Reachable.provide 0 100 100 dexSeeded_reachable

/-- C1: whenever both amount-validation checks pass and `totalShares = 0`,
`provide` returns exactly `100 * 10^6` shares and credits exactly that
amount to the caller and to `totalShares`, independently of the deposited
amounts (which occur as arbitrary `a1`, `a2` here). -/
theorem C1_genesis_mints_fixed_share (d : dex.Dex) (c a1 a2 : Nat)
    (h1 : dex.validAmountCheck d.token1Balance c a1 = .ok ())
    (h2 : dex.validAmountCheck d.token2Balance c a2 = .ok ())
    (h0 : d.totalShares = 0) :
    (d.provide c a1 a2).1 = .ok (100 * 1000000) ∧
    (d.provide c a1 a2).2.totalShares = d.totalShares + 100 * 1000000 ∧
    dex.Mapping.get (d.provide c a1 a2).2.shares c
      = dex.Mapping.get d.shares c + 100 * 1000000 := by
  rw [dex.provide_def_checks d c a1 a2 h1 h2, if_pos h0,
    dex.provideCommit_ok d c a1 a2 (100 * PRECISION) (by decide)]
  refine ⟨rfl, rfl, ?_⟩
  simp only [dex.provideOutcome_shares, dex.Mapping.upsertWith_add,
    dex.Mapping.get_insert_self]
  rfl

/-- C1 witness: at the seeded pool, a genesis deposit of the arbitrary
amounts `(123, 77)` mints exactly `100 * 10^6` shares. -/
theorem C1_genesis_mints_fixed_share_witness :
    (dexSeeded.provide 0 123 77).1 = .ok (100 * 1000000) ∧
    (dexSeeded.provide 0 123 77).2.totalShares = dexSeeded.totalShares + 100 * 1000000 ∧
    dex.Mapping.get (dexSeeded.provide 0 123 77).2.shares 0
      = dex.Mapping.get dexSeeded.shares 0 + 100 * 1000000 :=
  C1_genesis_mints_fixed_share dexSeeded 0 123 77 rfl rfl rfl

/-- C2: whenever `provide` or `withdraw` returns an error, the returned
state (pool totals, fee parameter and all account maps) is exactly the
input state. -/
theorem C2_error_leaves_state_unchanged (d : dex.Dex) (c a1 a2 s : Nat)
    (e1 e2 : dex.Error) :
    ((d.provide c a1 a2).1 = .error e1 → (d.provide c a1 a2).2 = d) ∧
    ((d.withdraw c s).1 = .error e2 → (d.withdraw c s).2 = d) := by
  constructor
  · intro h
    rcases dex.provide_spec d c a1 a2 with ⟨e, heq⟩ | ⟨s0, _, _, _, _, _, _, heq⟩
    · rw [heq]
    · rw [heq] at h
      exact absurd h (by simp)
  · intro h
    rcases dex.withdraw_spec d c s with ⟨e, heq⟩ | ⟨_, _, _, _, heq⟩
    · rw [heq]
    · rw [heq] at h
      exact absurd h (by simp)

/-- C2 witness: on the fresh pool both operations fail with
`InsufficientAmount` and return the state unchanged. -/
theorem C2_error_leaves_state_unchanged_witness :
    (dexEmpty.provide 0 5 5).1 = .error dex.Error.InsufficientAmount ∧
    (dexEmpty.provide 0 5 5).2 = dexEmpty ∧
    (dexEmpty.withdraw 0 5).1 = .error dex.Error.InsufficientAmount ∧
    (dexEmpty.withdraw 0 5).2 = dexEmpty := by
  have T := C2_error_leaves_state_unchanged dexEmpty 0 5 5 5
    dex.Error.InsufficientAmount dex.Error.InsufficientAmount
  exact ⟨rfl, T.1 rfl, rfl, T.2 rfl⟩

/-- A pool state with a large share supply against much larger token
reserves, so that a small deposit in the exact pool ratio still computes
`share1 = share2 = 0`. -/
def dexSkewed : dex.Dex :=
  { totalShares := 100000000
    totalToken1 := 1000000000
    totalToken2 := 1000000000
    shares := [(0, 100000000)]
    token1Balance := [(1, 5)]
    token2Balance := [(1, 5)]
    fees := 0 }

/-- C3 counterexample: with `totalShares > 0` and a caller holding
sufficient nonzero balances of both tokens, a deposit with
`share1 = share2` (both zero) does not succeed: it fails with
`ThresholdNotReached`, contradicting the claimed `succeeds iff
share1 = share2, otherwise NonEquivalentValue` dichotomy. -/
theorem C3_counterexample :
    dexSkewed.totalShares > 0 ∧
    dex.Mapping.get dexSkewed.token1Balance 1 = 5 ∧
    dex.Mapping.get dexSkewed.token2Balance 1 = 5 ∧
    dexSkewed.totalShares * 1 / dexSkewed.totalToken1
      = dexSkewed.totalShares * 1 / dexSkewed.totalToken2 ∧
    (dexSkewed.provide 1 1 1).1 = .error dex.Error.ThresholdNotReached := by
  refine ⟨by decide, rfl, rfl, by decide, rfl⟩

/-- C3 (amended): with `totalShares > 0` and both amount checks passing,
`provide` fails with `NonEquivalentValue` when `share1 ≠ share2`, fails
with `ThresholdNotReached` when `share1 = share2 = 0`, and succeeds
returning `share1` when `share1 = share2 ≠ 0`. -/
theorem C3_ratio_and_threshold (d : dex.Dex) (c a1 a2 : Nat)
    (h0 : d.totalShares ≠ 0)
    (h1 : dex.validAmountCheck d.token1Balance c a1 = .ok ())
    (h2 : dex.validAmountCheck d.token2Balance c a2 = .ok ()) :
    (d.totalShares * a1 / d.totalToken1 ≠ d.totalShares * a2 / d.totalToken2 →
      (d.provide c a1 a2).1 = .error dex.Error.NonEquivalentValue) ∧
    (d.totalShares * a1 / d.totalToken1 = d.totalShares * a2 / d.totalToken2 →
      d.totalShares * a1 / d.totalToken1 = 0 →
      (d.provide c a1 a2).1 = .error dex.Error.ThresholdNotReached) ∧
    (d.totalShares * a1 / d.totalToken1 = d.totalShares * a2 / d.totalToken2 →
      d.totalShares * a1 / d.totalToken1 ≠ 0 →
      (d.provide c a1 a2).1 = .ok (d.totalShares * a1 / d.totalToken1)) := by
  rw [dex.provide_def_checks d c a1 a2 h1 h2, if_neg h0]
  refine ⟨?_, ?_, ?_⟩
  · intro hne
    rw [if_pos hne]
  · intro heqq hz
    rw [if_neg (not_not.mpr heqq), hz, dex.provideCommit_zero]
  · intro heqq hnz
    rw [if_neg (not_not.mpr heqq), dex.provideCommit_ok _ _ _ _ _ hnz]

/-- C3 witness: all three branches of the amended claim at concrete
states. -/
theorem C3_ratio_and_threshold_witness :
    (dexFunded.provide 0 50 60).1 = .error dex.Error.NonEquivalentValue ∧
    (dexFunded.provide 0 50 50).1 = .ok 50000000 ∧
    (dexSkewed.provide 1 1 1).1 = .error dex.Error.ThresholdNotReached := by
  have T1 := C3_ratio_and_threshold dexFunded 0 50 60 (by decide) rfl rfl
  have T2 := C3_ratio_and_threshold dexFunded 0 50 50 (by decide) rfl rfl
  have T3 := C3_ratio_and_threshold dexSkewed 1 1 1 (by decide) rfl rfl
  exact ⟨T1.1 (by decide), T2.2.2 (by decide) (by decide), T3.2.1 (by decide) (by decide)⟩

/-- C4: from any reachable state, after a successful `provide` or a
successful `withdraw` the pool is empty in token1 exactly when it is empty
in token2. -/
theorem C4_pool_emptiness_iff (d : dex.Dex) (h : dex.Reachable d)
    (c a1 a2 sh s : Nat) (x : Nat × Nat) :
    ((d.provide c a1 a2).1 = .ok s →
      ((d.provide c a1 a2).2.totalToken1 = 0 ↔ (d.provide c a1 a2).2.totalToken2 = 0)) ∧
    ((d.withdraw c sh).1 = .ok x →
      ((d.withdraw c sh).2.totalToken1 = 0 ↔ (d.withdraw c sh).2.totalToken2 = 0)) := by
  obtain ⟨_, _, _, hp1, hp2, _, _⟩ := dex.inv_provide d c a1 a2 (dex.reachable_inv d h)
  obtain ⟨_, _, _, hw1, hw2, _, _⟩ := dex.inv_withdraw d c sh (dex.reachable_inv d h)
  exact ⟨fun _ => hp1.trans hp2.symm, fun _ => hw1.trans hw2.symm⟩

/-- C4 witness: at the funded pool, after a proportional deposit and after
a full withdrawal the equivalence holds. -/
theorem C4_pool_emptiness_iff_witness :
    ((dexFunded.provide 0 50 50).2.totalToken1 = 0
      ↔ (dexFunded.provide 0 50 50).2.totalToken2 = 0) ∧
    ((dexFunded.withdraw 0 100000000).2.totalToken1 = 0
      ↔ (dexFunded.withdraw 0 100000000).2.totalToken2 = 0) := by
  have T := C4_pool_emptiness_iff dexFunded dexFunded_reachable 0 50 50
    100000000 50000000 (100, 100)
  exact ⟨T.1 rfl, T.2 rfl⟩

/-- C5: in every reachable state `totalShares` is the sum of all share
balances; a successful `provide` adds the minted share amount to both
`totalShares` and the caller share balance, and a successful `withdraw`
subtracts the burnt amount from both. -/
theorem C5_total_shares_accounting (d : dex.Dex) (c a1 a2 sh s : Nat) (x : Nat × Nat) :
    (dex.Reachable d → dex.Mapping.sumValues d.shares = d.totalShares) ∧
    ((d.provide c a1 a2).1 = .ok s →
      (d.provide c a1 a2).2.totalShares = d.totalShares + s ∧
      dex.Mapping.get (d.provide c a1 a2).2.shares c
        = dex.Mapping.get d.shares c + s) ∧
    ((d.withdraw c sh).1 = .ok x →
      (d.withdraw c sh).2.totalShares = d.totalShares - sh ∧
      dex.Mapping.get (d.withdraw c sh).2.shares c
        = dex.Mapping.get d.shares c - sh) := by
  refine ⟨fun h => ?_, fun h => ?_, fun h => ?_⟩
  · obtain ⟨_, _, _, _, _, hsum, _⟩ := dex.reachable_inv d h
    exact hsum
  · rcases dex.provide_spec d c a1 a2 with ⟨e, heq⟩ | ⟨s0, _, _, _, _, _, _, heq⟩
    · rw [heq] at h
      exact absurd h (by simp)
    · rw [heq] at h ⊢
      have hss : s0 = s := by simpa using h
      subst hss
      refine ⟨rfl, ?_⟩
      simp only [dex.provideOutcome_shares, dex.Mapping.upsertWith_add,
        dex.Mapping.get_insert_self]
  · rcases dex.withdraw_spec d c sh with ⟨e, heq⟩ | ⟨hs0, hsb, _, _, heq⟩
    · rw [heq] at h
      exact absurd h (by simp)
    · rw [heq]
      refine ⟨rfl, ?_⟩
      have hgetpos : dex.Mapping.get d.shares c ≠ 0 := by
        intro hz
        rw [hz] at hsb
        exact hs0 (Nat.le_zero.mp hsb)
      simp only [dex.withdrawOutcome_shares]
      rw [dex.Mapping.modify_eq_insert _ _ _
        (dex.Mapping.contains_of_get_ne_zero _ _ hgetpos), dex.Mapping.get_insert_self]

/-- C5 witness: the accounting at the funded pool for a deposit of
`(50, 50)` and a full withdrawal. -/
theorem C5_total_shares_accounting_witness :
    dex.Mapping.sumValues dexFunded.shares = dexFunded.totalShares ∧
    (dexFunded.provide 0 50 50).2.totalShares = dexFunded.totalShares + 50000000 ∧
    dex.Mapping.get (dexFunded.provide 0 50 50).2.shares 0
      = dex.Mapping.get dexFunded.shares 0 + 50000000 ∧
    (dexFunded.withdraw 0 100000000).2.totalShares
      = dexFunded.totalShares - 100000000 ∧
    dex.Mapping.get (dexFunded.withdraw 0 100000000).2.shares 0
      = dex.Mapping.get dexFunded.shares 0 - 100000000 := by
  have T := C5_total_shares_accounting dexFunded 0 50 50 100000000 50000000 (100, 100)
  exact ⟨T.1 dexFunded_reachable, (T.2.1 rfl).1, (T.2.1 rfl).2,
    (T.2.2 rfl).1, (T.2.2 rfl).2⟩

/-- C6: `getWithdrawEstimate` is a pure read (a function of the state with
no state output) that fails `ZeroLiquidity` whenever
`totalToken1 * totalToken2 = 0`, checked before the `InvalidShare` check
for `shareAmount > totalShares`, and otherwise returns the pair of
floor-divided token amounts. -/
theorem C6_withdraw_estimate_spec (d : dex.Dex) (s : Nat) :
    d.getWithdrawEstimate s =
      (if d.totalToken1 * d.totalToken2 = 0 then .error dex.Error.ZeroLiquidity
       else if s > d.totalShares then .error dex.Error.InvalidShare
       else .ok (s * d.totalToken1 / d.totalShares,
         s * d.totalToken2 / d.totalShares)) :=
  dex.getWithdrawEstimate_eq d s

/-- C7 counterexample: at `totalToken1 = totalToken2 = 2^64` the 128-bit
product computation yields `0`, not the exact mathematical product
`2^128`; the balance width is not wide enough for the product of two
arbitrary balance magnitudes. -/
theorem C7_counterexample :
    dex.getKU128 (2 ^ 64) (2 ^ 64) = 0 ∧ (2 ^ 64 : Nat) * 2 ^ 64 ≠ 0 := by
  constructor
  · decide
  · decide

/-- C7 (amended): `getK` multiplies the two pool balances in the 128-bit
balance width, so it returns the exact mathematical product whenever that
product fits below `2^128` (and cannot do so above it, as the
counterexample shows). -/
theorem C7_getK_exact_below_width (d : dex.Dex)
    (h : d.totalToken1 * d.totalToken2 < 2 ^ 128) :
    dex.getKU128 d.totalToken1 d.totalToken2 = d.getK :=
  Nat.mod_eq_of_lt h

/-- C7 witness: at the funded pool the product is `10000 < 2^128` and the
width-faithful computation agrees with the exact one. -/
theorem C7_getK_exact_below_width_witness :
    dexFunded.totalToken1 * dexFunded.totalToken2 < 2 ^ 128 ∧
    dex.getKU128 dexFunded.totalToken1 dexFunded.totalToken2 = dexFunded.getK :=
  ⟨by decide, C7_getK_exact_below_width dexFunded (by decide)⟩

/-- C8: the constructor stores `0` for a fee argument `≥ 1000` and the
argument itself below `1000`, with all pool totals zero; in particular
`new(2000)` stores `0`. -/
theorem C8_constructor_clamps_fees (f : Nat) :
    (f ≥ 1000 → (dex.Dex.new f).fees = 0) ∧
    (f < 1000 → (dex.Dex.new f).fees = f) ∧
    (dex.Dex.new f).totalShares = 0 ∧
    (dex.Dex.new f).totalToken1 = 0 ∧
    (dex.Dex.new f).totalToken2 = 0 ∧
    (dex.Dex.new 2000).fees = 0 := by
  refine ⟨fun h => ?_, fun h => ?_, rfl, rfl, rfl, rfl⟩
  · simp [dex.Dex.new, h]
  · simp [dex.Dex.new, Nat.not_le.mpr h]

/-- C8 witness: the clamped and unclamped branches at `2000` and `500`. -/
theorem C8_constructor_clamps_fees_witness :
    ((2000 : Nat) ≥ 1000 ∧ (dex.Dex.new 2000).fees = 0) ∧
    ((500 : Nat) < 1000 ∧ (dex.Dex.new 500).fees = 500) :=
  ⟨⟨by decide, (C8_constructor_clamps_fees 2000).1 (by decide)⟩,
   ⟨by decide, (C8_constructor_clamps_fees 500).2.1 (by decide)⟩⟩

/-- An unreachable state: caller `0` owns the whole share supply but has
no entry in either token-balance map. -/
def dexOrphan : dex.Dex :=
  { totalShares := 100000000
    totalToken1 := 100
    totalToken2 := 100
    shares := [(0, 100000000)]
    token1Balance := []
    token2Balance := []
    fees := 0 }

/-- C9 counterexample: a successful `withdraw` from a state in which the
caller holds shares but no token-balance entries drops the token credit
(the source uses `and_modify` with no `or_insert`), so the conserved
quantity pool-total + sum of account balances strictly decreases. -/
theorem C9_counterexample :
    (dexOrphan.withdraw 0 100000000).1 = .ok (100, 100) ∧
    (dexOrphan.withdraw 0 100000000).2.totalToken1
        + dex.Mapping.sumValues (dexOrphan.withdraw 0 100000000).2.token1Balance
      ≠ dexOrphan.totalToken1 + dex.Mapping.sumValues dexOrphan.token1Balance := by
  constructor
  · rfl
  · decide

/-- C9 (amended): from any reachable state, for each asset separately the
quantity pool-total + sum of all account balances is unchanged by every
`provide` and every `withdraw` (success or failure), and `faucet`
increases it by exactly the credited amounts.  (Reachability is needed:
the counterexample shows an unreachable state where a withdraw drops its
token credit.) -/
theorem C9_conservation (d : dex.Dex) (h : dex.Reachable d) (c a1 a2 sh : Nat) :
    ((d.provide c a1 a2).2.totalToken1
        + dex.Mapping.sumValues (d.provide c a1 a2).2.token1Balance
      = d.totalToken1 + dex.Mapping.sumValues d.token1Balance) ∧
    ((d.provide c a1 a2).2.totalToken2
        + dex.Mapping.sumValues (d.provide c a1 a2).2.token2Balance
      = d.totalToken2 + dex.Mapping.sumValues d.token2Balance) ∧
    ((d.withdraw c sh).2.totalToken1
        + dex.Mapping.sumValues (d.withdraw c sh).2.token1Balance
      = d.totalToken1 + dex.Mapping.sumValues d.token1Balance) ∧
    ((d.withdraw c sh).2.totalToken2
        + dex.Mapping.sumValues (d.withdraw c sh).2.token2Balance
      = d.totalToken2 + dex.Mapping.sumValues d.token2Balance) ∧
    ((d.faucet c a1 a2).totalToken1
        + dex.Mapping.sumValues (d.faucet c a1 a2).token1Balance
      = d.totalToken1 + dex.Mapping.sumValues d.token1Balance + a1) ∧
    ((d.faucet c a1 a2).totalToken2
        + dex.Mapping.sumValues (d.faucet c a1 a2).token2Balance
      = d.totalToken2 + dex.Mapping.sumValues d.token2Balance + a2) := by
  obtain ⟨hns, hn1, hn2, hi1, hi2, hsum, hcov⟩ := dex.reachable_inv d h
  have hprov : ((d.provide c a1 a2).2.totalToken1
        + dex.Mapping.sumValues (d.provide c a1 a2).2.token1Balance
      = d.totalToken1 + dex.Mapping.sumValues d.token1Balance) ∧
      ((d.provide c a1 a2).2.totalToken2
        + dex.Mapping.sumValues (d.provide c a1 a2).2.token2Balance
      = d.totalToken2 + dex.Mapping.sumValues d.token2Balance) := by
    rcases dex.provide_spec d c a1 a2 with ⟨e, heq⟩ | ⟨s0, _, hb1, _, hb2, _, _, heq⟩
    · rw [heq]
      exact ⟨rfl, rfl⟩
    · rw [heq]
      constructor
      · simp only [dex.provideOutcome_totalToken1, dex.provideOutcome_token1Balance]
        have hins := dex.Mapping.sumValues_insert d.token1Balance c
          (dex.Mapping.get d.token1Balance c - a1) hn1
        generalize dex.Mapping.get d.token1Balance c = g at hins hb1 ⊢
        omega
      · simp only [dex.provideOutcome_totalToken2, dex.provideOutcome_token2Balance]
        have hins := dex.Mapping.sumValues_insert d.token2Balance c
          (dex.Mapping.get d.token2Balance c - a2) hn2
        generalize dex.Mapping.get d.token2Balance c = g at hins hb2 ⊢
        omega
  have hwith : ((d.withdraw c sh).2.totalToken1
        + dex.Mapping.sumValues (d.withdraw c sh).2.token1Balance
      = d.totalToken1 + dex.Mapping.sumValues d.token1Balance) ∧
      ((d.withdraw c sh).2.totalToken2
        + dex.Mapping.sumValues (d.withdraw c sh).2.token2Balance
      = d.totalToken2 + dex.Mapping.sumValues d.token2Balance) := by
    rcases dex.withdraw_spec d c sh with ⟨e, heq⟩ | ⟨hs0, hsb, hK, hsS, heq⟩
    · rw [heq]
      exact ⟨rfl, rfl⟩
    · rw [heq]
      have hgetpos : dex.Mapping.get d.shares c ≠ 0 := by
        intro hz
        rw [hz] at hsb
        exact hs0 (Nat.le_zero.mp hsb)
      obtain ⟨hc1, hc2⟩ := hcov c hgetpos
      have hSpos : 0 < d.totalShares :=
        Nat.lt_of_lt_of_le (Nat.pos_of_ne_zero hs0) hsS
      constructor
      · simp only [dex.withdrawOutcome_totalToken1, dex.withdrawOutcome_token1Balance]
        rw [dex.Mapping.modify_eq_insert _ _ _ hc1]
        have hx1le : sh * d.totalToken1 / d.totalShares ≤ d.totalToken1 := by
          have hmul : sh * d.totalToken1 ≤ d.totalShares * d.totalToken1 :=
            Nat.mul_le_mul_right _ hsS
          have hdiv : sh * d.totalToken1 / d.totalShares
              ≤ d.totalShares * d.totalToken1 / d.totalShares :=
            Nat.div_le_div_right hmul
          rwa [Nat.mul_div_cancel_left _ hSpos] at hdiv
        have hins := dex.Mapping.sumValues_insert d.token1Balance c
          (dex.Mapping.get d.token1Balance c
            + sh * d.totalToken1 / d.totalShares) hn1
        generalize dex.Mapping.get d.token1Balance c = g at hins ⊢
        generalize sh * d.totalToken1 / d.totalShares = x1 at hins hx1le ⊢
        omega
      · simp only [dex.withdrawOutcome_totalToken2, dex.withdrawOutcome_token2Balance]
        rw [dex.Mapping.modify_eq_insert _ _ _ hc2]
        have hx2le : sh * d.totalToken2 / d.totalShares ≤ d.totalToken2 := by
          have hmul : sh * d.totalToken2 ≤ d.totalShares * d.totalToken2 :=
            Nat.mul_le_mul_right _ hsS
          have hdiv : sh * d.totalToken2 / d.totalShares
              ≤ d.totalShares * d.totalToken2 / d.totalShares :=
            Nat.div_le_div_right hmul
          rwa [Nat.mul_div_cancel_left _ hSpos] at hdiv
        have hins := dex.Mapping.sumValues_insert d.token2Balance c
          (dex.Mapping.get d.token2Balance c
            + sh * d.totalToken2 / d.totalShares) hn2
        generalize dex.Mapping.get d.token2Balance c = g at hins ⊢
        generalize sh * d.totalToken2 / d.totalShares = x2 at hins hx2le ⊢
        omega
  have hfau : ((d.faucet c a1 a2).totalToken1
        + dex.Mapping.sumValues (d.faucet c a1 a2).token1Balance
      = d.totalToken1 + dex.Mapping.sumValues d.token1Balance + a1) ∧
      ((d.faucet c a1 a2).totalToken2
        + dex.Mapping.sumValues (d.faucet c a1 a2).token2Balance
      = d.totalToken2 + dex.Mapping.sumValues d.token2Balance + a2) := by
    constructor
    · simp only [dex.faucet_totalToken1, dex.faucet_token1Balance]
      have hins := dex.Mapping.sumValues_insert d.token1Balance c
        (dex.Mapping.get d.token1Balance c + a1) hn1
      generalize dex.Mapping.get d.token1Balance c = g at hins ⊢
      omega
    · simp only [dex.faucet_totalToken2, dex.faucet_token2Balance]
      have hins := dex.Mapping.sumValues_insert d.token2Balance c
        (dex.Mapping.get d.token2Balance c + a2) hn2
      generalize dex.Mapping.get d.token2Balance c = g at hins ⊢
      omega
  exact ⟨hprov.1, hprov.2, hwith.1, hwith.2, hfau.1, hfau.2⟩

/-- C9 witness: conservation at the funded pool for a withdraw and the
faucet delta, with concrete amounts. -/
theorem C9_conservation_witness :
    (dexFunded.withdraw 0 100000000).2.totalToken1
        + dex.Mapping.sumValues (dexFunded.withdraw 0 100000000).2.token1Balance
      = dexFunded.totalToken1 + dex.Mapping.sumValues dexFunded.token1Balance ∧
    (dexFunded.faucet 0 7 9).totalToken2
        + dex.Mapping.sumValues (dexFunded.faucet 0 7 9).token2Balance
      = dexFunded.totalToken2 + dex.Mapping.sumValues dexFunded.token2Balance + 9 := by
  have T := C9_conservation dexFunded dexFunded_reachable 0 7 9 100000000
  exact ⟨T.2.2.1, T.2.2.2.2.2⟩

/-- C10: in every reachable state the pool has shares exactly when it has
each token, and whenever the caller share-balance check of `withdraw`
passes, `withdraw` returns neither `ZeroLiquidity` nor `InvalidShare`. -/
theorem C10_withdraw_no_liquidity_errors (d : dex.Dex) (h : dex.Reachable d)
    (c sh : Nat) :
    (d.totalShares = 0 ↔ d.totalToken1 = 0) ∧
    (d.totalShares = 0 ↔ d.totalToken2 = 0) ∧
    (dex.validAmountCheck d.shares c sh = .ok () →
      (d.withdraw c sh).1 ≠ .error dex.Error.ZeroLiquidity ∧
      (d.withdraw c sh).1 ≠ .error dex.Error.InvalidShare) := by
  obtain ⟨_, _, _, hi1, hi2, hsum, _⟩ := dex.reachable_inv d h
  refine ⟨hi1.symm, hi2.symm, fun hv => ?_⟩
  obtain ⟨hsh0, hshb⟩ := (dex.validAmountCheck_eq_ok _ _ _).mp hv
  have hgle := dex.Mapping.get_le_sumValues d.shares c
  have hS : d.totalShares ≠ 0 := by omega
  have ht1 : d.totalToken1 ≠ 0 := fun hz => hS (hi1.mp hz)
  have ht2 : d.totalToken2 ≠ 0 := fun hz => hS (hi2.mp hz)
  have hK : d.totalToken1 * d.totalToken2 ≠ 0 := Nat.mul_ne_zero ht1 ht2
  have hshS : sh ≤ d.totalShares := by omega
  have hest : d.getWithdrawEstimate sh
      = .ok (sh * d.totalToken1 / d.totalShares, sh * d.totalToken2 / d.totalShares) := by
    rw [dex.getWithdrawEstimate_eq, if_neg hK, if_neg (Nat.not_lt.mpr hshS)]
  rw [dex.withdraw_def_checks d c sh _ _ hv hest]
  exact ⟨by simp, by simp⟩

/-- C10 witness: at the funded pool a full withdrawal by the share holder
passes the share check and produces neither of the two liquidity errors. -/
theorem C10_withdraw_no_liquidity_errors_witness :
    (dexFunded.totalShares = 0 ↔ dexFunded.totalToken1 = 0) ∧
    (dexFunded.withdraw 0 100000000).1 ≠ .error dex.Error.ZeroLiquidity ∧
    (dexFunded.withdraw 0 100000000).1 ≠ .error dex.Error.InvalidShare := by
  have T := C10_withdraw_no_liquidity_errors dexFunded dexFunded_reachable 0 100000000
  exact ⟨T.1, (T.2.2 rfl).1, (T.2.2 rfl).2⟩
